import Mathlib

/-!
Shallow embedding of `downloads-server.py` (Downloads Galaxy).

The scanning/aggregation core is embedded as pure Lean functions over an
explicit filesystem tree.  Machine-level details modelled explicitly:

* Python `str.lower` on the ASCII names involved is `Char.toLower` mapped
  over the characters.
* `x in s` (substring test) is an executable substring search.
* `Path.suffix` / `Path.stem` follow pathlib: the suffix is the part of
  the final component from its last dot, but only when that dot is neither
  the first nor the last character of the name.
* `f"{v:.1f}"` / `f"{v:.2f}"` on `v = size / 2^k`: division of an integer
  by a power of two is exact in binary floating point (for sizes below
  2^53, which covers every real file size), and the C `%.1f` formatting
  rounds the exact value half-to-even; we model this with exact rational
  rounding `roundHalfEven`.
* `datetime.fromtimestamp(m).isoformat()` is a pure injective function of
  the raw modification time `m`; the timestamp is kept raw (`mtime : Nat`)
  since no property here depends on the rendered ISO text.
* A file whose `stat()` raises `PermissionError`/`OSError` is modelled by
  a `readable : Bool` flag on the tree leaf; `get_file_data` returns
  `Option FileRecord` (`none` = the swallowed exception).
* Directory iteration order (`iterdir`, `rglob`) is the order of the
  `List` of children in the tree.  `rglob` in the model interleaves a
  subdirectory's descendants at the subdirectory's position; the real
  traversal chunks them differently, which only permutes files of equal
  size through the stable sort and affects no property proved here.
  Mid-iteration `PermissionError` on a directory (caught at line 216 of
  the source) is not modelled: the tree represents the readable portion.

The mojibake emoji literals (`'ğŸ¬'` etc.) are exactly the
character sequences stored in the source file.
-/

namespace DownloadsGalaxy

/-- Python `str.lower()` (ASCII names only appear in the tables); defined
by structural recursion over the character list so that it evaluates
inside the kernel. -/
def lowerStr (s : String) : String :=
  String.mk (s.toList.map Char.toLower)

/-- Does `l` start with `p`?  (helper for the substring test). -/
def listStarts : List Char → List Char → Bool
  | [], _ => true
  | _ :: _, [] => false
  | a :: as, b :: bs => a = b && listStarts as bs

/-- Python `s.startswith(p)`; structural-recursion equivalent of
`String.startsWith`. -/
def strStarts (s p : String) : Bool :=
  listStarts p.toList s.toList

/-- Python `s.split(sep)` for a one-character separator (statement-side
helper used to talk about path segments of a rendered name). -/
def splitSegsAux (sep : Char) : List Char → List Char → List String
  | [], acc => [String.mk acc.reverse]
  | c :: cs, acc =>
    if c = sep then String.mk acc.reverse :: splitSegsAux sep cs []
    else splitSegsAux sep cs (c :: acc)

/-- Split a string on a separator character, structurally. -/
def splitSegs (sep : Char) (s : String) : List String :=
  splitSegsAux sep s.toList []

/-- Python `needle in hay` on lists of characters. -/
def listContainsSub (needle : List Char) : List Char → Bool
  | [] => listStarts needle []
  | c :: cs => listStarts needle (c :: cs) || listContainsSub needle cs

/-- Python `needle in hay` for strings. -/
def strContains (hay needle : String) : Bool :=
  listContainsSub needle.toList hay.toList

/-- Index of the last `'.'` in a character list, if any. -/
def rfindDot : List Char → Option Nat
  | [] => none
  | c :: cs =>
    match rfindDot cs with
    | some i => some (i + 1)
    | none => if c = '.' then some 0 else none

/-- pathlib `Path(name).suffix`: from the last dot of the final component,
unless that dot is the leading or the trailing character. -/
def pathSuffix (name : String) : String :=
  let cs := name.toList
  match rfindDot cs with
  | none => ""
  | some i => if 0 < i ∧ i < cs.length - 1 then String.mk (cs.drop i) else ""

/-- pathlib `Path(name).stem`: the final component minus `pathSuffix`. -/
def pathStem (name : String) : String :=
  let cs := name.toList
  match rfindDot cs with
  | none => name
  | some i => if 0 < i ∧ i < cs.length - 1 then String.mk (cs.take i) else name

/-- `FILE_CATEGORIES` (line 51): insertion-ordered dict, category → extensions. -/
def FILE_CATEGORIES : List (String × List String) :=
  [("video", [".mp4", ".mov", ".avi", ".mkv", ".webm", ".m4v"]),
   ("audio", [".mp3", ".m4a", ".wav", ".flac", ".aac", ".ogg", ".wma"]),
   ("image", [".jpg", ".jpeg", ".png", ".gif", ".webp", ".svg", ".bmp", ".heic", ".tiff"]),
   ("document", [".pdf", ".doc", ".docx", ".txt", ".rtf", ".odt", ".xls", ".xlsx", ".ppt", ".pptx", ".csv"]),
   ("archive", [".zip", ".rar", ".7z", ".tar", ".gz", ".bz2"]),
   ("installer", [".dmg", ".pkg", ".app", ".exe", ".msi"]),
   ("data", [".json", ".xml", ".yaml", ".yml", ".sql", ".db"]),
   ("code", [".py", ".js", ".ts", ".html", ".css", ".java", ".cpp", ".c", ".go", ".rs", ".rb"])]

/-- `get_file_type` (line 76): first category whose extension list holds the
lowercased suffix; `other` when none does. -/
def get_file_type (filename : String) : String :=
  let ext := lowerStr (pathSuffix filename)
  match FILE_CATEGORIES.find? (fun p => p.2.contains ext) with
  | some p => p.1
  | none => "other"

/-- `FOLDER_ICONS` (line 62); values are the literal character sequences of
the source file. -/
def FOLDER_ICONS : List (String × String) :=
  [("video", "ğŸ¬"),
   ("music", "ğŸµ"),
   ("images & screenshots", "ğŸ–¼ï¸"),
   ("ai & evals", "ğŸ¤–"),
   ("forms & documents", "ğŸ“‹"),
   ("financial", "ğŸ’°"),
   ("parenting & education podcasts",
     "ğŸ‘¨â€ğŸ‘©â€ğŸ‘§"),
   ("installers & archives", "ğŸ“¦"),
   ("code projects", "ğŸ’»"),
   ("manuals & reference", "ğŸ“–"),
   ("misc", "âœ¨")]

/-- Python `dict.get(k, d)` over an association list. -/
def dictGet (table : List (String × String)) (key dflt : String) : String :=
  match table.find? (fun p => p.1 = key) with
  | some p => p.2
  | none => dflt

/-- The per-extension icon dict of `get_file_icon` (line 87). -/
def FILE_ICONS : List (String × String) :=
  [(".mp4", "ğŸ¥"), (".mov", "ğŸ¥"), (".avi", "ğŸ¥"),
   (".mp3", "ğŸ™ï¸"), (".m4a", "ğŸµ"), (".wav", "ğŸµ"),
   (".jpg", "ğŸ“¸"), (".jpeg", "ğŸ“¸"),
   (".png", "ğŸ“±"), (".webp", "ğŸŒ"), (".gif", "ğŸï¸"),
   (".pdf", "ğŸ“„"), (".doc", "ğŸ“"), (".docx", "ğŸ“"),
   (".txt", "ğŸ“"),
   (".zip", "ğŸ“¦"), (".rar", "ğŸ“¦"), (".7z", "ğŸ“¦"),
   (".dmg", "ğŸ’¿"), (".pkg", "ğŸ“€"),
   (".json", "ğŸ“Š"), (".xml", "ğŸ“Š"),
   (".py", "ğŸ"), (".js", "ğŸ“œ"), (".html", "ğŸŒ"),
   (".srt", "ğŸ“"), (".ics", "ğŸ“…"),
   (".pkpass", "ğŸŸï¸")]

/-- `get_file_icon` (line 83). -/
def get_file_icon (filename : String) (is_dir : Bool := false) : String :=
  if is_dir then "ğŸ“"
  else dictGet FILE_ICONS (lowerStr (pathSuffix filename)) "ğŸ“„"

/-- Round `num / den` to the nearest integer, ties to even
(the rounding of C `%.f` formatting on an exactly-representable value). -/
def roundHalfEven (num den : Nat) : Nat :=
  let q := num / den
  let r := num % den
  if 2 * r < den then q
  else if den < 2 * r then q + 1
  else if q % 2 = 0 then q else q + 1

/-- Render `n`-tenths with one decimal, as `f"{v:.1f}"` does. -/
def oneDecimal (n : Nat) : String :=
  Nat.repr (n / 10) ++ "." ++ Nat.repr (n % 10)

/-- Render `n`-hundredths with two decimals, as `f"{v:.2f}"` does. -/
def twoDecimals (n : Nat) : String :=
  Nat.repr (n / 100) ++ "." ++
    (if n % 100 < 10 then "0" ++ Nat.repr (n % 100) else Nat.repr (n % 100))

/-- `format_size` (line 100).  `f"{size/2^k:.df}"` = exact rational
rounded half-to-even to `d` decimals (see file header). -/
def format_size (size_bytes : Nat) : String :=
  if size_bytes < 1024 then
    Nat.repr size_bytes ++ " B"
  else if size_bytes < 1024 * 1024 then
    oneDecimal (roundHalfEven (size_bytes * 10) 1024) ++ " KB"
  else if size_bytes < 1024 * 1024 * 1024 then
    oneDecimal (roundHalfEven (size_bytes * 10) (1024 * 1024)) ++ " MB"
  else
    twoDecimals (roundHalfEven (size_bytes * 100) (1024 * 1024 * 1024)) ++ " GB"

/-- The folder-name category chain of `scan_folder` (lines 184–206),
extracted as its own function: an ordered if/elif chain on the lowercased
folder name, first match wins, `other` when nothing matches. -/
def folderCategory (folder_name : String) : String :=
  let l := lowerStr folder_name
  if strContains l "video" then "video"
  else if strContains l "music" || strContains l "audio" then "audio"
  else if strContains l "image" || strContains l "screenshot" || strContains l "photo" then "image"
  else if strContains l "document" || strContains l "form" then "document"
  else if strContains l "install" || strContains l "archive" then "installer"
  else if strContains l "financial" || strContains l "finance" then "document"
  else if strContains l "ai" || strContains l "eval" then "document"
  else if strContains l "podcast" || strContains l "parenting" || strContains l "education" then "audio"
  else if strContains l "code" || strContains l "project" then "archive"
  else if strContains l "manual" || strContains l "reference" then "document"
  else "other"

/-- Do the predicates tested before the `'code' in l or 'project' in l`
branch of the chain match? (the disjunction of lines 185–200's guards). -/
def earlierThanCodeMatches (l : String) : Bool :=
  strContains l "video" ||
  (strContains l "music" || strContains l "audio") ||
  (strContains l "image" || strContains l "screenshot" || strContains l "photo") ||
  (strContains l "document" || strContains l "form") ||
  (strContains l "install" || strContains l "archive") ||
  (strContains l "financial" || strContains l "finance") ||
  (strContains l "ai" || strContains l "eval") ||
  (strContains l "podcast" || strContains l "parenting" || strContains l "education")

/-- The dict returned by `get_file_data` (line 250).  `modified` keeps the
raw st_mtime (its ISO rendering is a pure function of it, see header). -/
structure FileRecord where
  name : String
  display_name : String
  extension : String
  type : String
  icon : String
  size_bytes : Nat
  size : String
  modified : Nat
deriving Repr, DecidableEq

/-- Join path segments the way `str(PurePosixPath)` renders them. -/
def joinPath (segs : List String) : String :=
  String.intercalate "/" segs

/-- `file_path.name`: the final path segment. -/
def lastSeg (segs : List String) : String :=
  (segs.getLast?).getD ""

/-- `get_file_data` (line 237).  `file_path` is the list of path segments
(absolute prefix irrelevant, only suffix relations matter); `readable`
models whether `stat()` succeeds; `relative_to` the optional ancestor.
Returns `none` where the Python swallows `PermissionError`/`OSError`. -/
def get_file_data (file_path : List String) (st_size st_mtime : Nat)
    (readable : Bool) (relative_to : Option (List String) := none) :
    Option FileRecord :=
  if !readable then none
  else
    let base := lastSeg file_path
    let name :=
      match relative_to with
      | none => base
      | some anc =>
        -- `file_path.relative_to(anc)` succeeds iff `anc` is a path
        -- segment-prefix; `ValueError` falls back to the bare name.
        if file_path.take anc.length = anc then
          joinPath (file_path.drop anc.length)
        else base
    let ext := lowerStr (pathSuffix base)
    let stem := pathStem base
    some
      { name := name
        display_name :=
          (String.mk (stem.toList.take 50)) ++
            (if 50 < stem.toList.length then "..." else "")
        extension := if ext = "" then "" else String.mk (ext.toList.drop 1)
        type := get_file_type base
        icon := get_file_icon base
        size_bytes := st_size
        size := format_size st_size
        modified := st_mtime }

/-- A filesystem tree: leaves carry st_size, st_mtime, and whether
`stat()` succeeds; children are in directory-iteration order. -/
inductive FSEntry where
  | file (name : String) (st_size st_mtime : Nat) (readable : Bool)
  | dir (name : String) (children : List FSEntry)

/-- `item.name` for a tree entry. -/
def FSEntry.entryName : FSEntry → String
  | .file n _ _ _ => n
  | .dir n _ => n

/-- One collected leaf of `folder_path.rglob('*')`: relative path
segments, st_size, st_mtime, readable. -/
structure RawFile where
  segs : List String
  st_size : Nat
  st_mtime : Nat
  readable : Bool
deriving Repr, DecidableEq

mutual
/-- The files below one entry, with relative path segments. -/
def FSEntry.rglob : FSEntry → List RawFile
  | .file n s m r => [⟨[n], s, m, r⟩]
  | .dir n cs => (rglobFiles cs).map (fun f => { f with segs := n :: f.segs })

/-- `folder_path.rglob('*')` restricted to entries for which
`item.is_file()` holds, with paths relative to the scanned folder.
pathlib's glob does not special-case dot entries, so hidden
subdirectories are descended into. -/
def rglobFiles : List FSEntry → List RawFile
  | [] => []
  | e :: rest => e.rglob ++ rglobFiles rest
end

/-- Insert into a list already sorted descending by `key`, after every
element of `key` ≥ the new one (preserving Python sort's stability). -/
def insertDesc (key : α → Nat) (a : α) : List α → List α
  | [] => [a]
  | b :: bs => if key a ≤ key b then b :: insertDesc key a bs else a :: b :: bs

/-- Stable sort, descending by `key`: models
`list.sort(key=..., reverse=True)`. -/
def sortByDesc (key : α → Nat) (l : List α) : List α :=
  l.foldl (fun acc a => insertDesc key a acc) []

/-- The dict built for one folder.  `scan_folder` (line 226) fills every
field; the synthetic "Uncategorized" dict (line 148) carries no
`total_files`, `hidden_files` or `total_size_formatted` keys, modelled by
`none`. -/
structure FolderSummary where
  name : String
  icon : String
  category : String
  files : List FileRecord
  total_files : Option Nat
  hidden_files : Option Nat
  total_size : Nat
  total_size_formatted : Option String
deriving Repr, DecidableEq

/-- `scan_folder` (line 174): recursive enumeration, per-file probing with
the folder as `relative_to`, stable descending sort by size, display cap
of 20, totals over the full (uncapped) set. -/
def scan_folder (folder_name : String) (children : List FSEntry) : FolderSummary :=
  let folder_lower := lowerStr folder_name
  let icon := dictGet FOLDER_ICONS folder_lower "ğŸ“"
  let category := folderCategory folder_name
  let files := (rglobFiles children).filterMap (fun f =>
    if !(strStarts (lastSeg f.segs) ".") then
      get_file_data (folder_name :: f.segs) f.st_size f.st_mtime f.readable
        (some [folder_name])
    else none)
  let total_size := (files.map (·.size_bytes)).sum
  let sorted := sortByDesc (·.size_bytes) files
  let display_files := sorted.take 20
  let hidden_count := if 20 < files.length then files.length - 20 else 0
  { name := folder_name
    icon := icon
    category := category
    files := display_files
    total_files := some files.length
    hidden_files := some hidden_count
    total_size := total_size
    total_size_formatted := some (format_size total_size) }

/-- The value of the `file_types` stats key: the initial dict holds the
raw `set()` literal, the successful path overwrites it with an `int`. -/
inductive FileTypesField where
  | rawSet (elems : List String)
  | count (n : Nat)
deriving Repr, DecidableEq

/-- The `stats` dict of a scan (line 114).  `total_size_formatted` is
absent (`none`) in the initial dict and set on the successful path. -/
structure StatsBlock where
  total_files : Nat
  total_size : Nat
  categories : Nat
  file_types : FileTypesField
  total_size_formatted : Option String
deriving Repr, DecidableEq

/-- The top-level dict returned by `scan_downloads` (line 112). -/
structure ScanResult where
  folders : List FolderSummary
  stats : StatsBlock
  scanned_at : String
deriving Repr, DecidableEq

/-- The `result` dict as initialised at line 112 (before any scanning). -/
def initResult (now : String) : ScanResult :=
  { folders := []
    stats :=
      { total_files := 0
        total_size := 0
        categories := 0
        file_types := .rawSet []
        total_size_formatted := none }
    scanned_at := now }

/-- The root-level skip of lines 132–135: dot-prefixed entries and the
trash folder never get past the loop's `continue`. -/
def keptItems (items : List FSEntry) : List FSEntry :=
  items.filter (fun it =>
    !(strStarts it.entryName ".") && it.entryName ≠ "$RECYCLE.BIN")

/-- The `folders` list built by the loop's directory branch (lines
137–140): scan each kept directory, keep non-empty results. -/
def subfolderSummaries (items : List FSEntry) : List FolderSummary :=
  (keptItems items).filterMap (fun it =>
    match it with
    | .dir n cs =>
      let folder_data := scan_folder n cs
      if folder_data.files ≠ [] then some folder_data else none
    | .file _ _ _ _ => none)

/-- The `root_files` list built by the loop's file branch (lines
141–144): probe each kept regular file, drop `None` results. -/
def rootFileRecords (items : List FSEntry) : List FileRecord :=
  (keptItems items).filterMap (fun it =>
    match it with
    | .file n s m r => get_file_data [n] s m r none
    | .dir _ _ => none)

/-- The synthetic dict appended at line 148: note the absent
`total_files`, `hidden_files` and `total_size_formatted` keys. -/
def uncategorizedSummary (root_files : List FileRecord) : FolderSummary :=
  { name := "Uncategorized"
    icon := "ğŸ“‚"
    category := "other"
    files := root_files
    total_files := none
    hidden_files := none
    total_size := (root_files.map (·.size_bytes)).sum
    total_size_formatted := none }

/-- `scan_downloads` (line 110).  `root_exists` models
`DOWNLOADS_PATH.exists()`, `items` the `iterdir()` listing, `now` the
`datetime.now().isoformat()` string.  The single loop of the source is
decomposed into `keptItems`/`subfolderSummaries`/`rootFileRecords`,
which preserves both the filtering and the relative order. -/
def scan_downloads (root_exists : Bool) (items : List FSEntry) (now : String) :
    ScanResult :=
  if !root_exists then initResult now
  else
    let folders0 :=
      if rootFileRecords items ≠ [] then
        subfolderSummaries items ++ [uncategorizedSummary (rootFileRecords items)]
      else subfolderSummaries items
    let folders := sortByDesc (·.total_size) folders0
    let all_files := folders.flatMap (·.files)
    let total_size := (all_files.map (·.size_bytes)).sum
    { folders := folders
      stats :=
        { total_files := all_files.length
          total_size := total_size
          categories := folders.length
          file_types :=
            .count (((all_files.map (·.extension)).filter (· ≠ "")).dedup.length)
          total_size_formatted := some (format_size total_size) }
      scanned_at := now }

/-! ### Library lemmas about the sorting and traversal helpers -/

theorem mem_insertDesc {key : α → Nat} {a b : α} {l : List α} :
    a ∈ insertDesc key b l ↔ a = b ∨ a ∈ l := by
  induction l with
  | nil => simp [insertDesc]
  | cons c cs ih =>
    simp only [insertDesc]
    split
    · rw [List.mem_cons, ih, List.mem_cons]; tauto
    · rw [List.mem_cons, List.mem_cons]

theorem mem_sortByDesc_aux {key : α → Nat} {a : α} (l : List α) (acc : List α) :
    a ∈ l.foldl (fun acc x => insertDesc key x acc) acc ↔ a ∈ acc ∨ a ∈ l := by
  induction l generalizing acc with
  | nil => simp
  | cons b bs ih =>
    simp only [List.foldl_cons, ih, mem_insertDesc, List.mem_cons]
    tauto

theorem mem_sortByDesc {key : α → Nat} {a : α} {l : List α} :
    a ∈ sortByDesc key l ↔ a ∈ l := by
  simp [sortByDesc, mem_sortByDesc_aux]

theorem length_insertDesc (key : α → Nat) (a : α) (l : List α) :
    (insertDesc key a l).length = l.length + 1 := by
  induction l with
  | nil => rfl
  | cons b bs ih =>
    simp only [insertDesc]
    split
    · simp [ih]
    · simp

theorem length_sortByDesc_aux (key : α → Nat) (l : List α) (acc : List α) :
    (l.foldl (fun acc x => insertDesc key x acc) acc).length = acc.length + l.length := by
  induction l generalizing acc with
  | nil => simp
  | cons b bs ih => simp [ih, length_insertDesc]; omega

theorem length_sortByDesc (key : α → Nat) (l : List α) :
    (sortByDesc key l).length = l.length := by
  simp [sortByDesc, length_sortByDesc_aux]

theorem pairwise_insertDesc {key : α → Nat} {a : α} {l : List α}
    (h : List.Pairwise (fun x y => key y ≤ key x) l) :
    List.Pairwise (fun x y => key y ≤ key x) (insertDesc key a l) := by
  induction l with
  | nil => simp [insertDesc]
  | cons b bs ih =>
    rw [List.pairwise_cons] at h
    simp only [insertDesc]
    split
    · rw [List.pairwise_cons]
      refine ⟨fun x hx => ?_, ih h.2⟩
      rcases mem_insertDesc.mp hx with rfl | hx
      · assumption
      · exact h.1 x hx
    · rw [List.pairwise_cons]
      refine ⟨fun x hx => ?_, List.pairwise_cons.mpr h⟩
      rcases List.mem_cons.mp hx with rfl | hx
      · omega
      · exact le_trans (h.1 x hx) (by omega)

theorem pairwise_sortByDesc_aux (key : α → Nat) (l : List α) (acc : List α)
    (hacc : List.Pairwise (fun x y => key y ≤ key x) acc) :
    List.Pairwise (fun x y => key y ≤ key x)
      (l.foldl (fun acc x => insertDesc key x acc) acc) := by
  induction l generalizing acc with
  | nil => simpa
  | cons b bs ih => exact ih _ (pairwise_insertDesc hacc)

theorem pairwise_sortByDesc (key : α → Nat) (l : List α) :
    List.Pairwise (fun x y => key y ≤ key x) (sortByDesc key l) :=
  pairwise_sortByDesc_aux key l [] (by simp)

theorem mem_of_mem_take {a : α} : ∀ {n : Nat} {l : List α}, a ∈ l.take n → a ∈ l :=
  fun h => (List.take_subset _ _) h

theorem rglob_segs_ne_nil {e : FSEntry} {raw : RawFile}
    (h : raw ∈ e.rglob) : raw.segs ≠ [] := by
  cases e with
  | file n s m r =>
    simp only [FSEntry.rglob, List.mem_singleton] at h
    subst h; simp
  | dir n cs =>
    simp only [FSEntry.rglob, List.mem_map] at h
    obtain ⟨x, _, rfl⟩ := h
    simp

theorem rglobFiles_segs_ne_nil {entries : List FSEntry} {raw : RawFile}
    (h : raw ∈ rglobFiles entries) : raw.segs ≠ [] := by
  induction entries with
  | nil => simp [rglobFiles] at h
  | cons e rest ih =>
    rw [rglobFiles, List.mem_append] at h
    rcases h with h | h
    · exact rglob_segs_ne_nil h
    · exact ih h

theorem lastSeg_cons_of_ne_nil (s : String) {segs : List String} (h : segs ≠ []) :
    lastSeg (s :: segs) = lastSeg segs := by
  cases segs with
  | nil => exact absurd rfl h
  | cons t ts => simp [lastSeg, List.getLast?_cons_cons]

theorem joinPath_singleton (s : String) : joinPath [s] = s := rfl

theorem mem_keptItems {items : List FSEntry} {it : FSEntry} (h : it ∈ keptItems items) :
    strStarts it.entryName "." = false ∧ it.entryName ≠ "$RECYCLE.BIN" := by
  rw [keptItems, List.mem_filter] at h
  have h2 := h.2
  simp only [Bool.and_eq_true, Bool.not_eq_true', decide_eq_true_eq] at h2
  exact h2

theorem mem_subfolderSummaries {items : List FSEntry} {fo : FolderSummary}
    (h : fo ∈ subfolderSummaries items) :
    ∃ n cs, FSEntry.dir n cs ∈ keptItems items ∧ fo = scan_folder n cs := by
  rw [subfolderSummaries, List.mem_filterMap] at h
  obtain ⟨it, hit, hsome⟩ := h
  cases it with
  | file n s m r => simp at hsome
  | dir n cs =>
    refine ⟨n, cs, hit, ?_⟩
    dsimp only at hsome
    split at hsome
    · injection hsome with h'
      exact h'.symm
    · cases hsome

theorem mem_rootFileRecords {items : List FSEntry} {f : FileRecord}
    (h : f ∈ rootFileRecords items) :
    ∃ n s m r, FSEntry.file n s m r ∈ keptItems items ∧
      get_file_data [n] s m r none = some f := by
  rw [rootFileRecords, List.mem_filterMap] at h
  obtain ⟨it, hit, hsome⟩ := h
  cases it with
  | dir n cs => simp at hsome
  | file n s m r => exact ⟨n, s, m, r, hit, hsome⟩

theorem get_file_data_root_name {n : String} {s m : Nat} {r : Bool} {f : FileRecord}
    (h : get_file_data [n] s m r none = some f) : f.name = n := by
  cases r with
  | false => simp [get_file_data] at h
  | true =>
    simp only [get_file_data, Bool.not_true, Bool.false_eq_true, if_false,
      Option.some.injEq] at h
    subst h
    rfl

theorem scan_folder_files_shape {folder_name : String} {children : List FSEntry}
    {f : FileRecord} (hf : f ∈ (scan_folder folder_name children).files) :
    ∃ segs, segs ≠ [] ∧ f.name = joinPath segs ∧
      strStarts (lastSeg segs) "." = false := by
  simp only [scan_folder] at hf
  have hf' := mem_sortByDesc.mp (mem_of_mem_take hf)
  rw [List.mem_filterMap] at hf'
  obtain ⟨raw, hraw, hsome⟩ := hf'
  have hne : raw.segs ≠ [] := rglobFiles_segs_ne_nil hraw
  cases hdot : strStarts (lastSeg raw.segs) "." with
  | true => rw [hdot] at hsome; simp at hsome
  | false =>
    rw [hdot] at hsome
    simp only [Bool.not_false, if_true] at hsome
    cases hrd : raw.readable with
    | false => rw [hrd] at hsome; simp [get_file_data] at hsome
    | true =>
      rw [hrd] at hsome
      simp only [get_file_data, Bool.not_true, Bool.false_eq_true, if_false,
        Option.some.injEq] at hsome
      subst hsome
      refine ⟨raw.segs, hne, ?_, hdot⟩
      simp [lastSeg_cons_of_ne_nil _ hne]

/-! ### Claim theorems -/

/-- C3: `format_size` uses binary (1024-based) unit steps — bytes with no
decimal below 1024, kilobytes with exactly one decimal digit below 1024²,
megabytes with one decimal digit below 1024³, gigabytes with exactly two
decimal digits otherwise (the digits being the half-to-even rounding of
the exact quotient) — and the four example inputs render as the spec
states. -/
theorem format_size_binary_steps :
    (∀ b : Nat, b < 1024 → format_size b = Nat.repr b ++ " B") ∧
    (∀ b : Nat, 1024 ≤ b → b < 1024 * 1024 → ∃ q r, r < 10 ∧
      q * 10 + r = roundHalfEven (b * 10) 1024 ∧
      format_size b = Nat.repr q ++ "." ++ Nat.repr r ++ " KB") ∧
    (∀ b : Nat, 1024 * 1024 ≤ b → b < 1024 * 1024 * 1024 → ∃ q r, r < 10 ∧
      q * 10 + r = roundHalfEven (b * 10) (1024 * 1024) ∧
      format_size b = Nat.repr q ++ "." ++ Nat.repr r ++ " MB") ∧
    (∀ b : Nat, 1024 * 1024 * 1024 ≤ b → ∃ q r, r < 100 ∧
      q * 100 + r = roundHalfEven (b * 100) (1024 * 1024 * 1024) ∧
      format_size b = Nat.repr q ++ "." ++
        (if r < 10 then "0" ++ Nat.repr r else Nat.repr r) ++ " GB") ∧
    (format_size 500 = "500 B" ∧ format_size 2048 = "2.0 KB" ∧
      format_size 1500000 = "1.4 MB" ∧ format_size 2147483648 = "2.00 GB") := by
  refine ⟨fun b hb => ?_, fun b h1 h2 => ?_, fun b h1 h2 => ?_, fun b h1 => ?_,
    by decide, by decide, by decide, by decide⟩
  · rw [format_size, if_pos hb]
  · rw [format_size, if_neg (by omega), if_pos h2]
    exact ⟨_, _, by omega, by omega, rfl⟩
  · rw [format_size, if_neg (by omega), if_neg (by omega), if_pos h2]
    exact ⟨_, _, by omega, by omega, rfl⟩
  · rw [format_size, if_neg (by omega), if_neg (by omega), if_neg (by omega)]
    exact ⟨_, _, by omega, by omega, rfl⟩

/-- C3 witness: the KB branch applied at the concrete input 2048. -/
theorem format_size_binary_steps_witness :
    ∃ q r, r < 10 ∧ q * 10 + r = roundHalfEven (2048 * 10) 1024 ∧
      format_size 2048 = Nat.repr q ++ "." ++ Nat.repr r ++ " KB" :=
  format_size_binary_steps.2.1 2048 (by decide) (by decide)

/-- C4: the folder-name chain is evaluated first-match-wins: any name
whose lowercasing contains "video" is categorized `video` no matter what
later predicates would match; in particular "Video Projects" contains
both "video" and "project" and gets `video`, while "Projects" (matching
only the later predicate) gets `archive`. -/
theorem folderCategory_first_match_wins :
    (∀ name, strContains (lowerStr name) "video" = true →
      folderCategory name = "video") ∧
    strContains (lowerStr "Video Projects") "video" = true ∧
    strContains (lowerStr "Video Projects") "project" = true ∧
    folderCategory "Video Projects" = "video" ∧
    folderCategory "Projects" = "archive" := by
  refine ⟨fun name h => ?_, by decide, by decide, by decide, by decide⟩
  simp [folderCategory, h]

/-- C4 witness: the universal part applied at the concrete name
"Video Projects". -/
theorem folderCategory_first_match_wins_witness :
    folderCategory "Video Projects" = "video" :=
  folderCategory_first_match_wins.1 "Video Projects" (by decide)

/-- C6: when the root path does not exist, `scan_downloads` returns the
initial result — an empty folder list and zero `total_files` — as a
value, not an error. -/
theorem scan_downloads_missing_root :
    ∀ items now, (scan_downloads false items now).folders = [] ∧
      (scan_downloads false items now).stats.total_files = 0 :=
  fun _ _ => ⟨rfl, rfl⟩

/-- C7: `get_file_data` is total — it yields `none` (the swallowed
`PermissionError`/`OSError`) exactly when the metadata read fails, and
otherwise a record whose name is the path relative to the ancestor when
the ancestor is a segment-prefix, and the bare final segment otherwise
(also when no ancestor is given). -/
theorem get_file_data_omission_and_name :
    (∀ segs sz mt anc, get_file_data segs sz mt false anc = none) ∧
    (∀ segs sz mt anc, ∃ rec,
      get_file_data segs sz mt true (some anc) = some rec ∧
      rec.name = (if segs.take anc.length = anc
        then joinPath (segs.drop anc.length) else lastSeg segs) ∧
      rec.size_bytes = sz ∧ rec.modified = mt) ∧
    (∀ segs sz mt, ∃ rec,
      get_file_data segs sz mt true none = some rec ∧ rec.name = lastSeg segs) := by
  exact ⟨fun _ _ _ _ => rfl, fun segs sz mt anc => ⟨_, rfl, rfl, rfl, rfl⟩,
    fun segs sz mt => ⟨_, rfl, rfl⟩⟩

/-- C8: for a fixed filesystem state (existence flag, directory tree and
all file metadata), two scans agree on every field except the scan
timestamp. -/
theorem scan_downloads_deterministic :
    ∀ root_exists items now₁ now₂,
      (scan_downloads root_exists items now₁).folders =
        (scan_downloads root_exists items now₂).folders ∧
      (scan_downloads root_exists items now₁).stats =
        (scan_downloads root_exists items now₂).stats := by
  intro root_exists items now₁ now₂
  cases root_exists <;> exact ⟨rfl, rfl⟩

/-- C10: the missing-root stats block differs in shape from a successful
scan's — no formatted-total-size entry and a raw empty set in
`file_types` — while every successful scan carries an integer distinct-
extension count and a formatted total size. -/
theorem stats_shape_differs_when_root_missing :
    (∀ items now,
      (scan_downloads false items now).stats.total_size_formatted = none ∧
      (scan_downloads false items now).stats.file_types = FileTypesField.rawSet []) ∧
    (∀ items now, ∃ n s,
      (scan_downloads true items now).stats.file_types = FileTypesField.count n ∧
      (scan_downloads true items now).stats.total_size_formatted = some s) :=
  ⟨fun _ _ => ⟨rfl, rfl⟩, fun _ _ => ⟨_, _, rfl, rfl⟩⟩

/-- C5: scanning a root holding one hidden file, one loose 10-byte file
and one subfolder with a 2000-byte file yields exactly the subfolder's
summary (icon and category derived from its name) plus "Uncategorized"
with the loose file, stats 2 files / 2010 bytes, and no trace of the
hidden file. -/
theorem scan_example_scenario :
    ((scan_downloads true
      [FSEntry.file ".DS_Store" 123 0 true,
       FSEntry.file "loose.txt" 10 5 true,
       FSEntry.dir "Music" [FSEntry.file "song.mp3" 2000 7 true]] "T").folders.map
        fun fo => (fo.name, fo.icon, fo.category,
          fo.files.map fun f => (f.name, f.size_bytes))) =
      [("Music", "ğŸµ", "audio", [("song.mp3", 2000)]),
       ("Uncategorized", "ğŸ“‚", "other", [("loose.txt", 10)])] ∧
    (scan_downloads true
      [FSEntry.file ".DS_Store" 123 0 true,
       FSEntry.file "loose.txt" 10 5 true,
       FSEntry.dir "Music" [FSEntry.file "song.mp3" 2000 7 true]] "T").stats.total_files
      = 2 ∧
    (scan_downloads true
      [FSEntry.file ".DS_Store" 123 0 true,
       FSEntry.file "loose.txt" 10 5 true,
       FSEntry.dir "Music" [FSEntry.file "song.mp3" 2000 7 true]] "T").stats.total_size
      = 2010 ∧
    ((scan_downloads true
      [FSEntry.file ".DS_Store" 123 0 true,
       FSEntry.file "loose.txt" 10 5 true,
       FSEntry.dir "Music" [FSEntry.file "song.mp3" 2000 7 true]] "T").folders.all
        fun fo => fo.files.all fun f => f.name ≠ ".DS_Store") = true := by
  decide

/-- C1 counterexample: a file inside a dot-prefixed subdirectory of a
scanned subfolder is collected — its record's relative name carries a
hidden path segment, contradicting exclusion at every level. -/
theorem hidden_segment_below_root_included :
    ((scan_downloads true
      [FSEntry.dir "Sub" [FSEntry.dir ".hidden" [FSEntry.file "inner.txt" 5 0 true]]]
      "T").folders.any fun fo => fo.files.any fun f =>
        (splitSegs (Char.ofNat 47) f.name).any fun seg => strStarts seg ".") = true := by
  decide

/-- C2 counterexample: with two loose root files listed smaller-first,
the synthetic "Uncategorized" summary keeps them in iteration order
(10 before 2000 — not descending by size) and carries no `total_files`
or `hidden_files` entries at all. -/
theorem uncategorized_unsorted_uncapped :
    ((scan_downloads true
      [FSEntry.file "a.txt" 10 0 true, FSEntry.file "b.txt" 2000 0 true]
      "T").folders.map fun fo =>
        (fo.name, fo.files.map (·.size_bytes), fo.total_files, fo.hidden_files)) =
      [("Uncategorized", [10, 2000], none, none)] := by
  decide

set_option maxHeartbeats 1000000 in
/-- C9: the folder-name heuristic only ever returns one of the seven
categories {video, audio, image, document, installer, archive, other} —
never `code` or `data`; a name reaching the `code`/`project` predicate
(no earlier predicate matching) is categorized `archive`; and the names
"Email" and "Repair" land on `document` through the "ai" substring. -/
theorem folderCategory_codomain :
    (∀ name, folderCategory name ∈
      ["video", "audio", "image", "document", "installer", "archive", "other"]) ∧
    (∀ name, folderCategory name ≠ "code" ∧ folderCategory name ≠ "data") ∧
    (∀ name, earlierThanCodeMatches (lowerStr name) = false →
      (strContains (lowerStr name) "code" = true ∨
        strContains (lowerStr name) "project" = true) →
      folderCategory name = "archive") ∧
    folderCategory "Email" = "document" ∧
    folderCategory "Repair" = "document" := by
  refine ⟨fun name => ?_, fun name => ?_, fun name h1 h2 => ?_, by decide, by decide⟩
  · simp only [folderCategory]
    repeat' split
    all_goals decide
  · simp only [folderCategory]
    repeat' split
    all_goals exact ⟨by decide, by decide⟩
  · simp only [folderCategory]
    repeat' split
    all_goals
      first
      | rfl
      | (exfalso
         simp only [earlierThanCodeMatches, Bool.or_eq_false_iff] at h1
         rcases h2 with h2 | h2 <;> simp_all)

/-- C9 witness: the `code`-predicate branch applied at the concrete
name "Code". -/
theorem folderCategory_codomain_witness :
    folderCategory "Code" = "archive" :=
  folderCategory_codomain.2.2.1 "Code" (by decide) (Or.inl (by decide))

/-- C2 (amended): every FolderSummary built by `scan_folder` — i.e. every
subfolder summary — has its displayed files sorted descending by size,
at most 20 of them, and `hidden_files = max(0, total_files − 20)`; the
synthetic "Uncategorized" summary is exempt (its root files keep
iteration order with no cap, and it carries no `total_files` or
`hidden_files` fields at all, see the counterexample). -/
theorem scan_folder_display_invariants :
    ∀ folder_name children,
      List.Pairwise (fun a b => b.size_bytes ≤ a.size_bytes)
        (scan_folder folder_name children).files ∧
      (scan_folder folder_name children).files.length ≤ 20 ∧
      ∃ total, (scan_folder folder_name children).total_files = some total ∧
        (scan_folder folder_name children).hidden_files =
          some (((total : Int) - 20).toNat) := by
  intro folder_name children
  refine ⟨?_, ?_, ?_⟩
  · simp only [scan_folder]
    exact (pairwise_sortByDesc (fun f : FileRecord => f.size_bytes) _).sublist
      (List.take_sublist _ _)
  · simp only [scan_folder]
    rw [List.length_take]
    exact min_le_left _ _
  · refine ⟨_, rfl, ?_⟩
    simp only [scan_folder]
    congr 1
    split_ifs <;> omega

/-- C1 (amended): hidden and trash entries are excluded at the root level
only — every FolderSummary other than the synthetic "Uncategorized" one
has a name that is not dot-prefixed and is not "$RECYCLE.BIN" — and
below the root the exclusion applies only to a file's own base name:
every displayed record's relative path ends in a non-dot-prefixed final
segment, while intermediate segments may be hidden or trash directories
(see the counterexample). -/
theorem scan_excludes_hidden_at_root_and_by_basename :
    ∀ root_exists items now,
      ∀ fo ∈ (scan_downloads root_exists items now).folders,
        (fo.name = "Uncategorized" ∨
          (strStarts fo.name "." = false ∧ fo.name ≠ "$RECYCLE.BIN")) ∧
        ∀ f ∈ fo.files, ∃ segs, segs ≠ [] ∧ f.name = joinPath segs ∧
          strStarts (lastSeg segs) "." = false := by
  intro root_exists items now fo hfo
  cases root_exists with
  | false => simp [scan_downloads, initResult] at hfo
  | true =>
    simp only [scan_downloads, Bool.not_true, Bool.false_eq_true, if_false] at hfo
    have hfo' := mem_sortByDesc.mp hfo
    have hcases : fo ∈ subfolderSummaries items ∨
        fo = uncategorizedSummary (rootFileRecords items) := by
      split at hfo'
      · rcases List.mem_append.mp hfo' with h | h
        · exact Or.inl h
        · exact Or.inr (List.mem_singleton.mp h)
      · exact Or.inl hfo'
    rcases hcases with hmem | rfl
    · obtain ⟨n, cs, hkept, rfl⟩ := mem_subfolderSummaries hmem
      have hk := mem_keptItems hkept
      simp only [FSEntry.entryName] at hk
      exact ⟨Or.inr ⟨hk.1, hk.2⟩, fun f hf => scan_folder_files_shape hf⟩
    · refine ⟨Or.inl rfl, fun f hf => ?_⟩
      obtain ⟨n, s, m, r, hkept, hsome⟩ := mem_rootFileRecords hf
      have hk := mem_keptItems hkept
      simp only [FSEntry.entryName] at hk
      have hname := get_file_data_root_name hsome
      refine ⟨[n], by simp, ?_, ?_⟩
      · rw [joinPath_singleton, hname]
      · exact hk.1

/-- C1 witness: the amended statement applied to a concrete scan of one
loose file, at its "Uncategorized" summary. -/
theorem scan_excludes_hidden_witness :
    ((uncategorizedSummary (rootFileRecords [FSEntry.file "a.txt" 7 0 true])).name =
        "Uncategorized" ∨
      (strStarts
          (uncategorizedSummary (rootFileRecords [FSEntry.file "a.txt" 7 0 true])).name
          "." = false ∧
        (uncategorizedSummary (rootFileRecords [FSEntry.file "a.txt" 7 0 true])).name ≠
          "$RECYCLE.BIN")) ∧
    ∀ f ∈ (uncategorizedSummary (rootFileRecords [FSEntry.file "a.txt" 7 0 true])).files,
      ∃ segs, segs ≠ [] ∧ f.name = joinPath segs ∧
        strStarts (lastSeg segs) "." = false :=
  scan_excludes_hidden_at_root_and_by_basename true
    [FSEntry.file "a.txt" 7 0 true] "T" _ (by decide)

end DownloadsGalaxy
